import Mathlib

/-!
Shallow embedding of the `KeyStore` ledger of `bot.py` (a Discord trial-key
bot): an in-memory pool of keys (`List String`), a claims dictionary mapping a
user id (already serialized to a string, as `str(user_id)` in the source) to
the claimed key, and a configuration record.  All mutating methods of
`KeyStore` run under a single `asyncio.Lock`, so the concurrent behaviour of
the store is exactly the sequential interleaving of whole operations; we model
each method as a pure function from the store state to a result paired with
the new state.  Persistence (`_save_pool` / `_save_claims`) writes the state
to disk and is not part of the in-memory state transition.
-/

namespace KeyBot

/-- The `config` dictionary: `{"min_days": ..., "mode": ...}` (`bot.py`
line 80). `min_days` is a Python `int`, hence `Int`. -/
structure Config where
  min_days : Int
  mode : String
deriving DecidableEq

/-- Defaults `DEFAULT_MIN_DAYS = 7`, `DEFAULT_MODE = "account"` (lines 52-53). -/
def defaultConfig : Config := ⟨7, "account"⟩

/-- In-memory state of `KeyStore`: `self._pool : List[str]`,
`self._claims : Dict[str, str]` (modelled as an association list in insertion
order, which is exactly the iteration order of a Python dict), and
`self._config` (lines 78-80). -/
structure Store where
  pool : List String
  claims : List (String × String)
  config : Config
deriving DecidableEq

/-- A `KeyStore` starting from absent/empty documents: empty pool, empty
claims, default config. -/
def emptyStore : Store := ⟨[], [], defaultConfig⟩

/-! ### Python dict operations on the claims association list -/

/-- `str(user_id) in self._claims` — key membership in the dict. -/
def claimsMem (cs : List (String × String)) (u : String) : Bool :=
  cs.any (fun p => p.1 == u)

/-- `self._claims.get(u)` / `self._claims.pop(u, None)`'s returned value:
the value stored under key `u`, if any. -/
def claimsLookup (cs : List (String × String)) (u : String) : Option String :=
  (cs.find? (fun p => p.1 == u)).map Prod.snd

/-- `self._claims[u] = k` — Python dict assignment: updates the entry in
place if the key is present, otherwise appends a new entry at the end. -/
def claimsInsert (cs : List (String × String)) (u k : String) :
    List (String × String) :=
  if claimsMem cs u then cs.map (fun p => if p.1 == u then (u, k) else p)
  else cs ++ [(u, k)]

/-- `self._claims.pop(u, None)`'s effect on the dict: the entry under key `u`
is removed (a dict holds at most one entry per key, so filtering is exact). -/
def claimsEraseUser (cs : List (String × String)) (u : String) :
    List (String × String) :=
  cs.filter (fun p => p.1 != u)

/-- `self._claims.values()`. -/
def claimsValues (cs : List (String × String)) : List String :=
  cs.map Prod.snd

/-! ### The `KeyStore` operations -/

/-- Python's `str.strip()`: drop leading and trailing whitespace characters.
Modelled on the character list of the string (the ASCII whitespace set of
`Char.isWhitespace` stands in for Python's whitespace set; all keys handled
by the claims below are ASCII). -/
def pyStrip (s : String) : String :=
  String.mk
    (((s.data.dropWhile Char.isWhitespace).reverse.dropWhile
        Char.isWhitespace).reverse)

/-- The cleaning step of `add_keys` (line 98):
`[k.strip() for k in keys if k and k.strip()]` — strip every candidate and
drop the ones that are empty after stripping (a candidate surviving the
filter is automatically non-empty, so the `if k` test adds nothing). -/
def cleanKeys (ks : List String) : List String :=
  (ks.map pyStrip).filter (fun k => k != "")

/-- The genuinely new keys of an `add_keys` call (lines 102-103):
`existing = set(self._pool) | set(self._claims.values())`;
`new = [k for k in keys if k not in existing]`. -/
def newKeys (s : Store) (ks : List String) : List String :=
  (cleanKeys ks).filter
    (fun k => !(s.pool.contains k) && !((claimsValues s.claims).contains k))

/-- `KeyStore.add_keys` (lines 97-108): clean the candidates, drop those
already in the pool or already claimed, append the rest to the pool tail and
return how many were appended. -/
def add_keys (s : Store) (ks : List String) : Nat × Store :=
  if (cleanKeys ks).isEmpty then (0, s)
  else if (newKeys s ks).isEmpty then (0, s)
  else ((newKeys s ks).length, { s with pool := s.pool ++ newKeys s ks })

/-- `KeyStore.has_claimed` (lines 110-111). -/
def has_claimed (s : Store) (uid : String) : Bool :=
  claimsMem s.claims uid

/-- `KeyStore.get_claim` (lines 113-114). -/
def get_claim (s : Store) (uid : String) : Option String :=
  claimsLookup s.claims uid

/-- `KeyStore.claim` (lines 116-126): `None` if the user already holds a
claim or the pool is empty; otherwise pop the pool head (`self._pool.pop(0)`),
bind it to the user and return it. -/
def claim (s : Store) (uid : String) : Option String × Store :=
  if claimsMem s.claims uid then (none, s)
  else
    match s.pool with
    | [] => (none, s)
    | k :: rest =>
      (some k, { s with pool := rest, claims := claimsInsert s.claims uid k })

/-- `KeyStore.revoke_claim` (lines 128-138): pop the user's claim; if a key
was held, `if key and return_to_pool:` — note the Python truthiness test on
the string, so an empty-string key is never returned to the pool — reinsert
it at the pool head unless already present (`if key not in self._pool:
self._pool.insert(0, key)`); return the popped key. -/
def revoke_claim (s : Store) (uid : String) (return_to_pool : Bool) :
    Option String × Store :=
  match claimsLookup s.claims uid with
  | none => (none, s)
  | some key =>
    (some key,
      { s with
        pool :=
          if key != "" && return_to_pool && !(s.pool.contains key) then
            key :: s.pool
          else s.pool,
        claims := claimsEraseUser s.claims uid })

/-- `KeyStore.assign_key_to_user` (lines 140-154): fail if the user already
holds a claim; otherwise, if `remove_from_pool`, `self._pool.remove(key)`
(first occurrence, `ValueError` swallowed — `List.erase` has exactly these
semantics), then bind the key to the user unconditionally.  The source makes
no check that `key` is unclaimed by someone else. -/
def assign_key_to_user (s : Store) (uid key : String)
    (remove_from_pool : Bool) : Bool × Store :=
  if claimsMem s.claims uid then (false, s)
  else
    (true,
      { s with
        pool := if remove_from_pool then s.pool.erase key else s.pool,
        claims := claimsInsert s.claims uid key })

/-- `KeyStore.remove_key_from_pool` (lines 156-170): if the key is in the
pool, drop every occurrence of it (`[k for k in self._pool if k != key]`) and
return `True`; otherwise delete every claims entry whose value is the key and
return whether any was deleted. -/
def remove_key_from_pool (s : Store) (key : String) : Bool × Store :=
  if s.pool.contains key then
    (true, { s with pool := s.pool.filter (fun k => k != key) })
  else
    if (claimsValues s.claims).contains key then
      (true, { s with claims := s.claims.filter (fun p => p.2 != key) })
    else (false, s)

/-- The first half of `KeyStore.set_config` (lines 189-190):
`if min_days is not None: self._config["min_days"] = int(min_days)`. -/
def cfgWithDays (c : Config) : Option Int → Config
  | some d => { c with min_days := d }
  | none => c

/-- `KeyStore.set_config` (lines 187-195): apply `min_days` when provided
(no range validation here), then validate `mode` — `raise ValueError` when it
is neither `"account"` nor `"guild"`.  The `Bool` records normal return
(`true`) vs. the `ValueError` (`false`); crucially, the `min_days` mutation
has already happened when the exception is raised. -/
def set_config (s : Store) (min_days : Option Int) (mode : Option String) :
    Bool × Store :=
  match mode with
  | none => (true, { s with config := cfgWithDays s.config min_days })
  | some m =>
    if m == "account" || m == "guild" then
      (true,
        { s with config := { cfgWithDays s.config min_days with mode := m } })
    else (false, { s with config := cfgWithDays s.config min_days })

/-- `KeyStore.available_count` (lines 172-173). -/
def available_count (s : Store) : Nat := s.pool.length

/-- `KeyStore.claim_count` (lines 175-176). -/
def claim_count (s : Store) : Nat := s.claims.length

/-- The state effect and acceptance of the `/setdays` command handler
`cmd_setdays` (lines 432-438): reject `days < 0 or days > 3650` before
touching the store, otherwise call `set_config(min_days=days)`. -/
def cmd_setdays (s : Store) (days : Int) : Bool × Store :=
  if days < 0 ∨ days > 3650 then (false, s)
  else (true, (set_config s (some days) none).2)

/-! ### Operation traces -/

/-- One ledger operation (argument vector of one `KeyStore` mutation). -/
inductive Op where
  | addKeys (ks : List String)
  | claim (uid : String)
  | revoke (uid : String) (return_to_pool : Bool)
  | assign (uid key : String) (remove_from_pool : Bool)
  | removeKey (key : String)
  | setConfig (min_days : Option Int) (mode : Option String)
deriving DecidableEq

/-- The state transition of one operation. -/
def applyOp (s : Store) : Op → Store
  | Op.addKeys ks => (add_keys s ks).2
  | Op.claim u => (claim s u).2
  | Op.revoke u b => (revoke_claim s u b).2
  | Op.assign u k b => (assign_key_to_user s u k b).2
  | Op.removeKey k => (remove_key_from_pool s k).2
  | Op.setConfig d m => (set_config s d m).2

/-- Run a sequence of operations. -/
def run (s : Store) (ops : List Op) : Store := ops.foldl applyOp s

/-- The ledger state reached from empty by `add_keys(["K"])` followed by
`assign_key_to_user("u1", "K", remove_from_pool=True)`: the pool is empty and
`"K"` is bound to `"u1"`. -/
def conflictStore : Store :=
  run emptyStore [Op.addKeys ["K"], Op.assign "u1" "K" true]

/-- The ledger state reached from empty by assigning the empty-string key to
`"u1"` and then adding `"B"`: pool `["B"]`, claims `{"u1": ""}`. -/
def emptyKeyStore : Store :=
  run emptyStore [Op.assign "u1" "" false, Op.addKeys ["B"]]

/-- The value returned by an operation's `add_keys` call (0 for the other
operations); used to total the "genuinely new keys" counts along a trace. -/
def addedDelta (s : Store) : Op → Nat
  | Op.addKeys ks => (add_keys s ks).1
  | _ => 0

/-- Total of the counts returned by the `add_keys` calls along a trace. -/
def addedCount (s : Store) : List Op → Nat
  | [] => 0
  | op :: ops => addedDelta s op + addedCount (applyOp s op) ops

/-! ### Invariants -/

/-- The exclusivity property of the spec: no key is simultaneously in the
pool and claimed, and no key is bound to two distinct identities. -/
def Exclusive (s : Store) : Prop :=
  (∀ k ∈ s.pool, k ∉ claimsValues s.claims) ∧
  List.Pairwise (fun p q : String × String => p.2 = q.2 → p.1 = q.1) s.claims

instance decidableExclusive (s : Store) : Decidable (Exclusive s) :=
  inferInstanceAs
    (Decidable ((∀ k ∈ s.pool, k ∉ claimsValues s.claims) ∧
      List.Pairwise (fun p q : String × String => p.2 = q.2 → p.1 = q.1)
        s.claims))

/-- All reachable-state invariants needed by the proofs below: the pool has
no duplicates, the claims dictionary has no duplicate user keys (automatic
for a Python dict), exclusivity holds, and neither the pool nor the claims
hold the empty string (the cleaning step of `add_keys` guarantees this for
every key that enters through the normal paths). -/
def goodStore (s : Store) : Prop :=
  s.pool.Nodup ∧ (s.claims.map Prod.fst).Nodup ∧ Exclusive s ∧
  (∀ k ∈ s.pool, k ≠ "") ∧ (∀ v ∈ claimsValues s.claims, v ≠ "")

/-- Operations that preserve `goodStore`: everything except
`assign_key_to_user`, with `add_keys` restricted to candidate lists that are
duplicate-free after cleaning. -/
def okOp : Op → Bool
  | Op.addKeys ks => decide (cleanKeys ks).Nodup
  | Op.assign _ _ _ => false
  | _ => true

/-- The operations of the conservation claim: `add_keys` (duplicate-free
after cleaning), `claim`, and `revoke_claim` with `return_to_pool = true`. -/
def consOp : Op → Bool
  | Op.addKeys ks => decide (cleanKeys ks).Nodup
  | Op.claim _ => true
  | Op.revoke _ b => b
  | _ => false

/-! ### Lemmas about the claims dictionary -/

theorem claimsMem_false_iff {cs : List (String × String)} {u : String} :
    claimsMem cs u = false ↔ ∀ p ∈ cs, p.1 ≠ u := by
  simp [claimsMem]

theorem claimsMem_true_iff {cs : List (String × String)} {u : String} :
    claimsMem cs u = true ↔ ∃ p ∈ cs, p.1 = u := by
  simp [claimsMem]

theorem find?_claims_eq_none {cs : List (String × String)} {u : String}
    (h : claimsMem cs u = false) : cs.find? (fun p => p.1 == u) = none := by
  rw [claimsMem_false_iff] at h
  rw [List.find?_eq_none]
  intro p hp
  simpa using h p hp

theorem claimsLookup_eq_none {cs : List (String × String)} {u : String}
    (h : claimsMem cs u = false) : claimsLookup cs u = none := by
  unfold claimsLookup
  rw [find?_claims_eq_none h]
  rfl

theorem claimsLookup_mem {cs : List (String × String)} {u k : String}
    (h : claimsLookup cs u = some k) : (u, k) ∈ cs := by
  unfold claimsLookup at h
  cases hf : cs.find? (fun p => p.1 == u) with
  | none => rw [hf] at h; simp at h
  | some p =>
    rw [hf] at h
    have hp1 : p.1 = u := by simpa using List.find?_some hf
    have hp2 : p.2 = k := by simpa using h
    have hm := List.mem_of_find?_eq_some hf
    rw [← hp1, ← hp2]
    simpa using hm

theorem mem_claimsValues {cs : List (String × String)} {v : String} :
    v ∈ claimsValues cs ↔ ∃ p ∈ cs, p.2 = v := by
  simp [claimsValues]

theorem claimsValues_of_mem {cs : List (String × String)} {p : String × String}
    (h : p ∈ cs) : p.2 ∈ claimsValues cs :=
  mem_claimsValues.2 ⟨p, h, rfl⟩

theorem claimsInsert_not_mem {cs : List (String × String)} {u k : String}
    (h : claimsMem cs u = false) : claimsInsert cs u k = cs ++ [(u, k)] := by
  simp [claimsInsert, h]

theorem claimsMem_append_self {cs : List (String × String)} {u k : String} :
    claimsMem (cs ++ [(u, k)]) u = true := by
  simp [claimsMem]

theorem claimsLookup_append_self {cs : List (String × String)} {u k : String}
    (h : claimsMem cs u = false) :
    claimsLookup (cs ++ [(u, k)]) u = some k := by
  unfold claimsLookup
  rw [List.find?_append, find?_claims_eq_none h]
  simp [List.find?]

theorem not_mem_uids {cs : List (String × String)} {u : String}
    (h : claimsMem cs u = false) : u ∉ cs.map Prod.fst := by
  rw [claimsMem_false_iff] at h
  intro hmem
  obtain ⟨p, hp, hpu⟩ := List.mem_map.1 hmem
  exact h p hp hpu

theorem claimsValues_subset_of_sublist {cs cs' : List (String × String)}
    (h : List.Sublist cs' cs) : claimsValues cs' ⊆ claimsValues cs :=
  (List.Sublist.map Prod.snd h).subset

/-- Consequence of the `Pairwise` half of `Exclusive`: a key is bound to at
most one identity. -/
theorem Exclusive.unique_value {s : Store} (h : Exclusive s)
    {u1 u2 v : String} (h1 : (u1, v) ∈ s.claims) (h2 : (u2, v) ∈ s.claims) :
    u1 = u2 := by
  rcases eq_or_ne (u1, v) (u2, v) with he | hne
  · exact congrArg Prod.fst he
  · have hsym :
        Symmetric (fun p q : String × String => p.2 = q.2 → p.1 = q.1) := by
      intro a b hab hba
      exact (hab hba.symm).symm
    exact (h.2.forall hsym h1 h2 hne) rfl

/-! ### Characterization of the operations -/

theorem mem_cleanKeys_ne_empty {ks : List String} {k : String}
    (h : k ∈ cleanKeys ks) : k ≠ "" := by
  simp [cleanKeys] at h
  exact h.2

theorem mem_newKeys {s : Store} {ks : List String} {k : String} :
    k ∈ newKeys s ks ↔
      k ∈ cleanKeys ks ∧ k ∉ s.pool ∧ k ∉ claimsValues s.claims := by
  simp [newKeys, and_assoc]

theorem newKeys_nil_of_clean_nil {s : Store} {ks : List String}
    (h : cleanKeys ks = []) : newKeys s ks = [] := by
  unfold newKeys
  rw [h]
  rfl

/-- `add_keys` always returns the number of genuinely new keys and appends
exactly those to the pool tail (the two early returns coincide with this
description when the list of new keys is empty). -/
theorem add_keys_eq (s : Store) (ks : List String) :
    add_keys s ks =
      ((newKeys s ks).length, { s with pool := s.pool ++ newKeys s ks }) := by
  unfold add_keys
  by_cases h1 : (cleanKeys ks).isEmpty
  · rw [if_pos h1]
    have h2 : newKeys s ks = [] :=
      newKeys_nil_of_clean_nil (List.isEmpty_iff.1 h1)
    simp [h2]
  · rw [if_neg h1]
    by_cases h2 : (newKeys s ks).isEmpty
    · rw [if_pos h2]
      have h3 : newKeys s ks = [] := List.isEmpty_iff.1 h2
      simp [h3]
    · rw [if_neg h2]

theorem claim_of_mem {s : Store} {uid : String}
    (h : claimsMem s.claims uid = true) : claim s uid = (none, s) := by
  simp [claim, h]

theorem claim_of_nil {s : Store} {uid : String}
    (h : claimsMem s.claims uid = false) (hp : s.pool = []) :
    claim s uid = (none, s) := by
  simp [claim, h, hp]

theorem claim_of_head {s : Store} {uid k : String} {rest : List String}
    (h : claimsMem s.claims uid = false) (hp : s.pool = k :: rest) :
    claim s uid =
      (some k, { s with pool := rest, claims := s.claims ++ [(uid, k)] }) := by
  simp [claim, h, hp, claimsInsert_not_mem h]

theorem revoke_of_none {s : Store} {uid : String} {b : Bool}
    (h : claimsLookup s.claims uid = none) : revoke_claim s uid b = (none, s) := by
  simp [revoke_claim, h]

theorem revoke_of_some {s : Store} {uid key : String} {b : Bool}
    (h : claimsLookup s.claims uid = some key) :
    revoke_claim s uid b =
      (some key,
        { s with
          pool :=
            if key != "" && b && !(s.pool.contains key) then key :: s.pool
            else s.pool,
          claims := claimsEraseUser s.claims uid }) := by
  simp [revoke_claim, h]

theorem assign_of_mem {s : Store} {uid key : String} {b : Bool}
    (h : claimsMem s.claims uid = true) :
    assign_key_to_user s uid key b = (false, s) := by
  simp [assign_key_to_user, h]

theorem assign_of_not_mem {s : Store} {uid key : String} {b : Bool}
    (h : claimsMem s.claims uid = false) :
    assign_key_to_user s uid key b =
      (true,
        { s with
          pool := if b then s.pool.erase key else s.pool,
          claims := s.claims ++ [(uid, key)] }) := by
  simp [assign_key_to_user, h, claimsInsert_not_mem h]

theorem set_config_pool_claims (s : Store) (d : Option Int) (m : Option String) :
    (set_config s d m).2.pool = s.pool ∧ (set_config s d m).2.claims = s.claims := by
  cases m with
  | none => exact ⟨rfl, rfl⟩
  | some m =>
    by_cases hm : (m == "account" || m == "guild") = true
    · simp [set_config, hm]
    · simp [set_config, hm]

/-! ### Preservation of the invariants -/

theorem goodStore_iff {s : Store} :
    goodStore s ↔
      s.pool.Nodup ∧ (s.claims.map Prod.fst).Nodup ∧
      ((∀ k ∈ s.pool, k ∉ claimsValues s.claims) ∧
        List.Pairwise (fun p q : String × String => p.2 = q.2 → p.1 = q.1)
          s.claims) ∧
      (∀ k ∈ s.pool, k ≠ "") ∧ (∀ v ∈ claimsValues s.claims, v ≠ "") :=
  Iff.rfl

theorem goodStore_add (s : Store) (ks : List String) (h : goodStore s)
    (hnd : (cleanKeys ks).Nodup) : goodStore (add_keys s ks).2 := by
  rw [goodStore_iff] at h
  obtain ⟨hpool, huid, ⟨hex1, hex2⟩, hpe, hve⟩ := h
  rw [add_keys_eq, goodStore_iff]
  refine ⟨?_, huid, ⟨?_, hex2⟩, ?_, hve⟩
  · refine hpool.append (hnd.filter _) ?_
    intro a ha hanew
    exact (mem_newKeys.1 hanew).2.1 ha
  · intro k hk
    rcases List.mem_append.1 hk with hk | hk
    · exact hex1 k hk
    · exact (mem_newKeys.1 hk).2.2
  · intro k hk
    rcases List.mem_append.1 hk with hk | hk
    · exact hpe k hk
    · exact mem_cleanKeys_ne_empty (mem_newKeys.1 hk).1

theorem goodStore_claim (s : Store) (uid : String) (h : goodStore s) :
    goodStore (claim s uid).2 := by
  cases hm : claimsMem s.claims uid with
  | true => rw [claim_of_mem hm]; exact h
  | false =>
    cases hp : s.pool with
    | nil => rw [claim_of_nil hm hp]; exact h
    | cons k rest =>
      rw [goodStore_iff] at h
      obtain ⟨hpool, huid, ⟨hex1, hex2⟩, hpe, hve⟩ := h
      rw [hp, List.nodup_cons] at hpool
      have hkpool : k ∈ s.pool := by rw [hp]; exact List.mem_cons_self k rest
      rw [claim_of_head hm hp, goodStore_iff]
      refine ⟨hpool.2, ?_, ⟨?_, ?_⟩, ?_, ?_⟩
      · rw [List.map_append]
        refine huid.append (by simp) ?_
        intro a ha hb
        simp at hb
        subst hb
        exact not_mem_uids hm ha
      · intro k' hk'
        have hvals :
            claimsValues (s.claims ++ [(uid, k)]) =
              claimsValues s.claims ++ [k] := by
          simp [claimsValues]
        rw [hvals]
        intro hmem
        rcases List.mem_append.1 hmem with hmem | hmem
        · exact hex1 k' (by rw [hp]; exact List.mem_cons_of_mem k hk') hmem
        · rw [List.mem_singleton] at hmem
          subst hmem
          exact hpool.1 hk'
      · refine List.pairwise_append.2 ⟨hex2, by simp, ?_⟩
        intro p hp' q hq
        rw [List.mem_singleton] at hq
        subst hq
        intro hpk
        exfalso
        have h2 : k ∈ claimsValues s.claims := by
          rw [← show p.2 = k from hpk]
          exact claimsValues_of_mem hp'
        exact hex1 k hkpool h2
      · intro k' hk'
        exact hpe k' (by rw [hp]; exact List.mem_cons_of_mem k hk')
      · intro v hv
        have hvals :
            claimsValues (s.claims ++ [(uid, k)]) =
              claimsValues s.claims ++ [k] := by
          simp [claimsValues]
        rw [hvals] at hv
        rcases List.mem_append.1 hv with hv | hv
        · exact hve v hv
        · rw [List.mem_singleton] at hv
          subst hv
          exact hpe v hkpool

theorem goodStore_revoke (s : Store) (uid : String) (b : Bool)
    (h : goodStore s) : goodStore (revoke_claim s uid b).2 := by
  cases hl : claimsLookup s.claims uid with
  | none => rw [revoke_of_none hl]; exact h
  | some key =>
    rw [goodStore_iff] at h
    obtain ⟨hpool, huid, ⟨hex1, hex2⟩, hpe, hve⟩ := h
    rw [revoke_of_some hl]
    have hmem : (uid, key) ∈ s.claims := claimsLookup_mem hl
    have hsub : List.Sublist (claimsEraseUser s.claims uid) s.claims :=
      List.filter_sublist _
    have hvsub := claimsValues_subset_of_sublist hsub
    have huid' : ((claimsEraseUser s.claims uid).map Prod.fst).Nodup :=
      (hsub.map Prod.fst).nodup huid
    have hex2' := hex2.sublist hsub
    have hkey_not : key ∉ claimsValues (claimsEraseUser s.claims uid) := by
      intro hk
      obtain ⟨q, hq, hq2⟩ := mem_claimsValues.1 hk
      obtain ⟨hq1, hqne⟩ := List.mem_filter.1 hq
      have hqmem : (q.1, key) ∈ s.claims := by
        rw [← hq2]
        simpa using hq1
      have : q.1 = uid := Exclusive.unique_value ⟨hex1, hex2⟩ hqmem hmem
      rw [bne_iff_ne] at hqne
      exact hqne this
    by_cases hcond : (key != "" && b && !(s.pool.contains key)) = true
    · rw [if_pos hcond]
      rw [Bool.and_eq_true, Bool.and_eq_true] at hcond
      obtain ⟨⟨hne, _⟩, hnc⟩ := hcond
      have hkp : key ∉ s.pool := by simpa using hnc
      have hkne : key ≠ "" := by simpa using hne
      rw [goodStore_iff]
      refine ⟨List.nodup_cons.2 ⟨hkp, hpool⟩, huid', ⟨?_, hex2'⟩, ?_, ?_⟩
      · intro k' hk'
        rcases List.mem_cons.1 hk' with hk' | hk'
        · subst hk'
          exact hkey_not
        · intro hv
          exact hex1 k' hk' (hvsub hv)
      · intro k' hk'
        rcases List.mem_cons.1 hk' with hk' | hk'
        · subst hk'
          exact hkne
        · exact hpe k' hk'
      · intro v hv
        exact hve v (hvsub hv)
    · rw [if_neg hcond, goodStore_iff]
      refine ⟨hpool, huid', ⟨?_, hex2'⟩, hpe, ?_⟩
      · intro k' hk' hv
        exact hex1 k' hk' (hvsub hv)
      · intro v hv
        exact hve v (hvsub hv)

theorem goodStore_remove (s : Store) (key : String) (h : goodStore s) :
    goodStore (remove_key_from_pool s key).2 := by
  rw [goodStore_iff] at h
  obtain ⟨hpool, huid, ⟨hex1, hex2⟩, hpe, hve⟩ := h
  unfold remove_key_from_pool
  by_cases hc : s.pool.contains key = true
  · rw [if_pos hc]
    rw [goodStore_iff]
    refine ⟨hpool.filter _, huid, ⟨?_, hex2⟩, ?_, hve⟩
    · intro k' hk'
      exact hex1 k' (List.mem_filter.1 hk').1
    · intro k' hk'
      exact hpe k' (List.mem_filter.1 hk').1
  · rw [if_neg hc]
    by_cases hv : (claimsValues s.claims).contains key = true
    · rw [if_pos hv]
      have hsub : List.Sublist (s.claims.filter (fun p => p.2 != key)) s.claims :=
        List.filter_sublist _
      have hvsub := claimsValues_subset_of_sublist hsub
      rw [goodStore_iff]
      refine ⟨hpool, (hsub.map Prod.fst).nodup huid, ⟨?_, hex2.sublist hsub⟩,
        hpe, ?_⟩
      · intro k' hk' hval
        exact hex1 k' hk' (hvsub hval)
      · intro v hval
        exact hve v (hvsub hval)
    · rw [if_neg hv]
      exact goodStore_iff.2 ⟨hpool, huid, ⟨hex1, hex2⟩, hpe, hve⟩

theorem goodStore_set_config (s : Store) (d : Option Int) (m : Option String)
    (h : goodStore s) : goodStore (set_config s d m).2 := by
  obtain ⟨hp, hc⟩ := set_config_pool_claims s d m
  rw [goodStore_iff] at h ⊢
  rw [hp, hc]
  exact h

theorem goodStore_applyOp (s : Store) (op : Op) (h : goodStore s)
    (hop : okOp op = true) : goodStore (applyOp s op) := by
  cases op with
  | addKeys ks =>
    exact goodStore_add s ks h (by simpa [okOp] using hop)
  | claim u => exact goodStore_claim s u h
  | revoke u b => exact goodStore_revoke s u b h
  | assign u k b => simp [okOp] at hop
  | removeKey k => exact goodStore_remove s k h
  | setConfig d m => exact goodStore_set_config s d m h

theorem goodStore_run (ops : List Op) :
    ∀ s : Store, goodStore s → (∀ op ∈ ops, okOp op = true) →
      goodStore (run s ops) := by
  induction ops with
  | nil => intro s h _; exact h
  | cons op ops ih =>
    intro s h hops
    have h1 : goodStore (applyOp s op) :=
      goodStore_applyOp s op h (hops op (List.mem_cons_self op ops))
    exact ih (applyOp s op) h1 (fun o ho => hops o (List.mem_cons_of_mem op ho))

theorem goodStore_empty : goodStore emptyStore := by
  rw [goodStore_iff]
  refine ⟨List.nodup_nil, List.nodup_nil, ⟨?_, List.Pairwise.nil⟩, ?_, ?_⟩ <;>
    simp [emptyStore, claimsValues]

/-! ### Conservation of keys -/

theorem cons_add (s : Store) (ks : List String) :
    available_count (add_keys s ks).2 + claim_count (add_keys s ks).2 =
      available_count s + claim_count s + (add_keys s ks).1 := by
  rw [add_keys_eq]
  simp [available_count, claim_count]
  omega

theorem cons_claim (s : Store) (uid : String) :
    available_count (claim s uid).2 + claim_count (claim s uid).2 =
      available_count s + claim_count s := by
  cases hm : claimsMem s.claims uid with
  | true => rw [claim_of_mem hm]
  | false =>
    cases hp : s.pool with
    | nil => rw [claim_of_nil hm hp]
    | cons k rest =>
      rw [claim_of_head hm hp]
      simp [available_count, claim_count, hp]
      omega

theorem length_eraseUser : ∀ {cs : List (String × String)} {u : String},
    (cs.map Prod.fst).Nodup → claimsMem cs u = true →
    (claimsEraseUser cs u).length + 1 = cs.length := by
  intro cs
  induction cs with
  | nil =>
    intro u hnd hmem
    simp [claimsMem] at hmem
  | cons p cs ih =>
    intro u hnd hmem
    rw [List.map_cons, List.nodup_cons] at hnd
    unfold claimsEraseUser at *
    rw [List.filter_cons]
    by_cases hpu : p.1 = u
    · have hfp : (p.1 != u) = false := by simp [hpu]
      simp only [hfp, Bool.false_eq_true, if_false]
      have hall : ∀ q ∈ cs, (fun p : String × String => p.1 != u) q = true := by
        intro q hq
        rw [bne_iff_ne]
        intro hqu
        exact hnd.1 (List.mem_map.2 ⟨q, hq, by rw [hqu, hpu]⟩)
      rw [List.filter_eq_self.2 hall]
      simp
    · have hfp : (p.1 != u) = true := bne_iff_ne.2 hpu
      simp only [hfp, if_true]
      have hmem' : claimsMem cs u = true := by
        rw [claimsMem_true_iff] at hmem ⊢
        obtain ⟨q, hq, hqu⟩ := hmem
        rcases List.mem_cons.1 hq with rfl | hq'
        · exact absurd hqu hpu
        · exact ⟨q, hq', hqu⟩
      have hlen := ih hnd.2 hmem'
      simp only [List.length_cons]
      omega

theorem cons_revoke (s : Store) (uid : String) (h : goodStore s) :
    available_count (revoke_claim s uid true).2 +
      claim_count (revoke_claim s uid true).2 =
      available_count s + claim_count s := by
  rw [goodStore_iff] at h
  obtain ⟨hpool, huid, ⟨hex1, hex2⟩, hpe, hve⟩ := h
  cases hl : claimsLookup s.claims uid with
  | none => rw [revoke_of_none hl]
  | some key =>
    rw [revoke_of_some hl]
    have hmem : (uid, key) ∈ s.claims := claimsLookup_mem hl
    have hkv : key ∈ claimsValues s.claims := claimsValues_of_mem hmem
    have hkne : key ≠ "" := hve key hkv
    have hkp : key ∉ s.pool := fun hp => hex1 key hp hkv
    have hcond : (key != "" && true && !(s.pool.contains key)) = true := by
      rw [Bool.and_eq_true, Bool.and_eq_true]
      refine ⟨⟨bne_iff_ne.2 hkne, rfl⟩, ?_⟩
      simpa using hkp
    rw [if_pos hcond]
    have hmemb : claimsMem s.claims uid = true :=
      claimsMem_true_iff.2 ⟨(uid, key), hmem, rfl⟩
    have hlen := length_eraseUser huid hmemb
    simp only [available_count, claim_count, List.length_cons]
    omega

theorem okOp_of_consOp {op : Op} (h : consOp op = true) : okOp op = true := by
  cases op <;> simp_all [consOp, okOp]

theorem cons_applyOp (s : Store) (op : Op) (h : goodStore s)
    (hop : consOp op = true) :
    available_count (applyOp s op) + claim_count (applyOp s op) =
      available_count s + claim_count s + addedDelta s op := by
  cases op with
  | addKeys ks => simpa [applyOp, addedDelta] using cons_add s ks
  | claim u => simpa [applyOp, addedDelta] using cons_claim s u
  | revoke u b =>
    have hb : b = true := by simpa [consOp] using hop
    subst hb
    simpa [applyOp, addedDelta] using cons_revoke s u
      (goodStore_iff.2 (goodStore_iff.1 h))
  | assign u k b => simp [consOp] at hop
  | removeKey k => simp [consOp] at hop
  | setConfig d m => simp [consOp] at hop

theorem cons_run (ops : List Op) :
    ∀ s : Store, goodStore s → (∀ op ∈ ops, consOp op = true) →
      available_count (run s ops) + claim_count (run s ops) =
        available_count s + claim_count s + addedCount s ops := by
  induction ops with
  | nil =>
    intro s _ _
    simp [run, addedCount]
  | cons op ops ih =>
    intro s h hops
    have hop := hops op (List.mem_cons_self op ops)
    have h1 : goodStore (applyOp s op) :=
      goodStore_applyOp s op h (okOp_of_consOp hop)
    have h2 := ih (applyOp s op) h1
      (fun o ho => hops o (List.mem_cons_of_mem op ho))
    have h3 := cons_applyOp s op h hop
    simp only [run, List.foldl_cons, addedCount] at *
    omega

theorem goodStore_exclusive {s : Store} (h : goodStore s) : Exclusive s :=
  (goodStore_iff.1 h).2.2.1

theorem length_filter_split (l : List (String × String)) (key : String) :
    (l.filter (fun p => p.2 != key)).length +
      (l.filter (fun p => p.2 == key)).length = l.length := by
  induction l with
  | nil => rfl
  | cons q l ih =>
    cases hq : q.2 == key with
    | true =>
      have hq' : (q.2 != key) = false := by simp [bne, hq]
      simp only [List.filter_cons, hq, hq', Bool.false_eq_true, if_false,
        if_true, List.length_cons]
      omega
    | false =>
      have hq' : (q.2 != key) = true := by simp [bne, hq]
      simp only [List.filter_cons, hq, hq', Bool.false_eq_true, if_false,
        if_true, List.length_cons]
      omega

/-! ## The claims -/

/-- **C1** (counterexample to the claim as stated): exclusivity does not hold
in every state reachable by ledger operations.  Two violations: after
`add_keys(["K"])` and `assign_key_to_user("u1", "K",
remove_from_pool=False)`, the key `"K"` is both pooled and claimed; and
after `add_keys(["X", "X"])` (the candidate list is de-duplicated only
against *existing* keys, not against itself) followed by two claims, the key
`"X"` is bound to both `"u1"` and `"u2"`. -/
theorem exclusivity_counterexample :
    ¬ Exclusive (run emptyStore [Op.addKeys ["K"], Op.assign "u1" "K" false]) ∧
    ¬ Exclusive (run emptyStore
      [Op.addKeys ["X", "X"], Op.claim "u1", Op.claim "u2"]) := by
  decide

/-- **C1** (amended): in every state reachable from the empty ledger by
`add_keys`, `claim`, `revoke_claim`, `remove_key_from_pool` and `set_config`
— that is, excluding `assign_key_to_user` — and in which every `add_keys`
call received a candidate list that is duplicate-free after cleaning, no key
appears both in the pool and in the claim map, and no key is bound to two
distinct identities. -/
theorem exclusivity_of_ok_ops (ops : List Op)
    (h : ∀ op ∈ ops, okOp op = true) : Exclusive (run emptyStore ops) :=
  goodStore_exclusive (goodStore_run ops emptyStore goodStore_empty h)

/-- Witness for C1 (amended) at a concrete trace exercising `add_keys`,
`claim`, `revoke_claim` and `remove_key_from_pool`. -/
theorem exclusivity_of_ok_ops_witness :
    Exclusive (run emptyStore
      [Op.addKeys ["A", "B"], Op.claim "u1", Op.revoke "u1" true,
        Op.removeKey "B", Op.setConfig (some 3) (some "guild")]) :=
  exclusivity_of_ok_ops _ (by decide)

/-- **C4** (counterexample to the claim as stated): conservation fails for
sequences that include `revoke_claim` with `returnToPool = false` (the key is
purged, so `available_count + claim_count` drops below the number of added
keys), and also for `add_keys` calls whose candidate list repeats a new key
(the pool then holds a duplicate, and the revoke of one copy does not return
the key because it is "already in the pool"). -/
theorem conservation_counterexample :
    (available_count (run emptyStore
        [Op.addKeys ["K"], Op.claim "u1", Op.revoke "u1" false]) +
      claim_count (run emptyStore
        [Op.addKeys ["K"], Op.claim "u1", Op.revoke "u1" false]) = 0 ∧
      addedCount emptyStore
        [Op.addKeys ["K"], Op.claim "u1", Op.revoke "u1" false] = 1) ∧
    (available_count (run emptyStore
        [Op.addKeys ["X", "X"], Op.claim "u1", Op.revoke "u1" true]) +
      claim_count (run emptyStore
        [Op.addKeys ["X", "X"], Op.claim "u1", Op.revoke "u1" true]) = 1 ∧
      addedCount emptyStore
        [Op.addKeys ["X", "X"], Op.claim "u1", Op.revoke "u1" true] = 2) := by
  decide

/-- **C4** (amended): for every sequence of `add_keys` (with candidate lists
that are duplicate-free after cleaning), `claim`, and `revoke_claim` with
`returnToPool = true`, the resulting `available_count + claim_count` equals
the total of the counts of genuinely new keys returned by the `add_keys`
calls: no key is lost or duplicated. -/
theorem conservation (ops : List Op) (h : ∀ op ∈ ops, consOp op = true) :
    available_count (run emptyStore ops) + claim_count (run emptyStore ops) =
      addedCount emptyStore ops := by
  have hc := cons_run ops emptyStore goodStore_empty h
  simpa [available_count, claim_count, emptyStore] using hc

/-- Witness for C4 (amended) at a concrete trace: two keys added, one
claimed, revoked back to the pool and claimed again; 2 + 0 = 2. -/
theorem conservation_witness :
    available_count (run emptyStore
        [Op.addKeys ["A", "B"], Op.claim "u1", Op.revoke "u1" true,
          Op.claim "u2"]) +
      claim_count (run emptyStore
        [Op.addKeys ["A", "B"], Op.claim "u1", Op.revoke "u1" true,
          Op.claim "u2"]) =
      addedCount emptyStore
        [Op.addKeys ["A", "B"], Op.claim "u1", Op.revoke "u1" true,
          Op.claim "u2"] :=
  conservation _ (by decide)

/-- **C3**: `claim` returns `None` and leaves the state unchanged when the
identity already holds a claim or when the pool is empty; otherwise it
removes exactly the head key of the pool, binds it to the identity and
returns it — so with pool `["A", "B", "C"]` the first successful claim
returns `"A"` (see the witness). -/
theorem claim_spec (s : Store) (uid : String) :
    (has_claimed s uid = true → claim s uid = (none, s)) ∧
    (has_claimed s uid = false → s.pool = [] → claim s uid = (none, s)) ∧
    (∀ k rest, has_claimed s uid = false → s.pool = k :: rest →
      claim s uid =
        (some k, { s with pool := rest, claims := s.claims ++ [(uid, k)] })) :=
  ⟨fun h => claim_of_mem h, fun h hp => claim_of_nil h hp,
    fun _ _ h hp => claim_of_head h hp⟩

/-- Witness for C3: the FIFO scenario of the spec — pool `["A", "B", "C"]`,
first claim returns `"A"`. -/
theorem claim_spec_witness :
    claim ⟨["A", "B", "C"], [], defaultConfig⟩ "u1" =
      (some "A", ⟨["B", "C"], [("u1", "A")], defaultConfig⟩) := by
  have h := (claim_spec ⟨["A", "B", "C"], [], defaultConfig⟩ "u1").2.2 "A"
    ["B", "C"] (by decide) rfl
  exact h

/-- **C7**: after a first `claim(identity)` returned key `K`, a second
`claim(identity)` returns `None` and leaves the state (hence the pool)
entirely unchanged, and `get_claim(identity)` still returns `K`. -/
theorem claim_idempotent (s s' : Store) (uid K : String)
    (h : claim s uid = (some K, s')) :
    claim s' uid = (none, s') ∧ get_claim s' uid = some K := by
  cases hm : claimsMem s.claims uid with
  | true =>
    rw [claim_of_mem hm] at h
    simp at h
  | false =>
    cases hp : s.pool with
    | nil =>
      rw [claim_of_nil hm hp] at h
      simp at h
    | cons k rest =>
      rw [claim_of_head hm hp, Prod.mk.injEq] at h
      obtain ⟨h1, h2⟩ := h
      have hk : k = K := Option.some.inj h1
      subst hk
      subst h2
      exact ⟨claim_of_mem claimsMem_append_self, claimsLookup_append_self hm⟩

/-- Witness for C7: `u1` claimed `"A"` from pool `["A", "B"]`; the second
call returns `None`, the pool stays `["B"]`, and `get_claim` returns
`"A"`. -/
theorem claim_idempotent_witness :
    claim ⟨["B"], [("u1", "A")], defaultConfig⟩ "u1" =
        (none, ⟨["B"], [("u1", "A")], defaultConfig⟩) ∧
      get_claim ⟨["B"], [("u1", "A")], defaultConfig⟩ "u1" = some "A" :=
  claim_idempotent ⟨["A", "B"], [], defaultConfig⟩ _ "u1" "A" (by decide)

/-- **C2** (counterexample to the claim as stated): `assign_key_to_user`
performs no already-bound check at all.  In the reachable state where `"K"`
is bound to `"u1"`, `assign_key_to_user("u2", "K", remove_from_pool=True)`
returns success and binds `"K"` to `"u2"` as well — both assigns of the same
key to the two different identities succeed. -/
theorem assign_conflict_counterexample :
    get_claim conflictStore "u1" = some "K" ∧
    "u1" ≠ "u2" ∧
    (assign_key_to_user conflictStore "u2" "K" true).1 = true ∧
    get_claim (assign_key_to_user conflictStore "u2" "K" true).2 "u1" =
      some "K" ∧
    get_claim (assign_key_to_user conflictStore "u2" "K" true).2 "u2" =
      some "K" := by
  decide

/-- **C2** (amended): `assign_key_to_user` fails (returns `False`, state
unchanged) exactly when the identity already holds a claim; in every other
case it binds the key and returns `True` — even when the key is already
bound to a different identity.  The already-bound check exists only in the
calling layer (`cmd_assign`), outside the lock. -/
theorem assign_spec (s : Store) (uid key : String) (rp : Bool) :
    (has_claimed s uid = true →
      assign_key_to_user s uid key rp = (false, s)) ∧
    (has_claimed s uid = false →
      assign_key_to_user s uid key rp =
        (true,
          { s with
            pool := if rp then s.pool.erase key else s.pool,
            claims := s.claims ++ [(uid, key)] })) :=
  ⟨fun h => assign_of_mem h, fun h => assign_of_not_mem h⟩

/-- Witness for C2 (amended): assigning `"K"` to `"u2"` removes it from the
pool and appends the binding. -/
theorem assign_spec_witness :
    assign_key_to_user ⟨["K", "B"], [("u1", "A")], defaultConfig⟩ "u2" "K"
        true =
      (true, ⟨["B"], [("u1", "A"), ("u2", "K")], defaultConfig⟩) := by
  have h := (assign_spec ⟨["K", "B"], [("u1", "A")], defaultConfig⟩ "u2" "K"
    true).2 (by decide)
  exact h

/-- **C8** (counterexample to the claim as stated): in the reachable state
`emptyKeyStore` (pool `["B"]`, `"u1"` holding the empty-string key via
`assign_key_to_user`), `revoke_claim("u1", return_to_pool=True)` returns the
key `""` which is not in the pool, yet — because of the Python truthiness
test `if key and return_to_pool:` — the key is *not* reinserted at the pool
head, and the immediately following `claim("u2")` returns `"B"`, not the
revoked key. -/
theorem reuse_at_head_counterexample :
    (revoke_claim emptyKeyStore "u1" true).1 = some "" ∧
    "" ∉ emptyKeyStore.pool ∧
    has_claimed (revoke_claim emptyKeyStore "u1" true).2 "u2" = false ∧
    (revoke_claim emptyKeyStore "u1" true).2.pool = ["B"] ∧
    (claim ((revoke_claim emptyKeyStore "u1" true).2) "u2").1 = some "B" := by
  decide

/-- **C8** (amended): if `revoke_claim(user1, return_to_pool=True)` returns
a *non-empty* key `K` that was not already in the pool, then `K` is
reinserted at the pool head, and an immediately following `claim(user2)` by
a user with no claim returns `K` — even when other keys were already pooled
before the revoke. -/
theorem reuse_at_head (s : Store) (u1 u2 K : String) (hK : K ≠ "")
    (hrev : (revoke_claim s u1 true).1 = some K)
    (hpool : K ∉ s.pool)
    (hu2 : has_claimed (revoke_claim s u1 true).2 u2 = false) :
    (revoke_claim s u1 true).2.pool = K :: s.pool ∧
    (claim ((revoke_claim s u1 true).2) u2).1 = some K := by
  cases hl : claimsLookup s.claims u1 with
  | none =>
    rw [revoke_of_none hl] at hrev
    simp at hrev
  | some key =>
    have hkK : key = K := by
      rw [revoke_of_some hl] at hrev
      simpa using hrev
    subst hkK
    have hcond : (key != "" && true && !(s.pool.contains key)) = true := by
      rw [Bool.and_eq_true, Bool.and_eq_true]
      exact ⟨⟨bne_iff_ne.2 hK, rfl⟩, by simpa using hpool⟩
    have h2 : (revoke_claim s u1 true).2 =
        { s with
          pool := key :: s.pool,
          claims := claimsEraseUser s.claims u1 } := by
      rw [revoke_of_some hl]
      simp only [if_pos hcond]
    rw [h2] at hu2 ⊢
    refine ⟨rfl, ?_⟩
    rw [claim_of_head hu2 rfl]

/-- Witness for C8 (amended): revoking `"K"` from `"u1"` while `"B"` is
already pooled hands `"K"` (not `"B"`) to `"u2"`. -/
theorem reuse_at_head_witness :
    (revoke_claim ⟨["B"], [("u1", "K")], defaultConfig⟩ "u1" true).2.pool =
        "K" :: ["B"] ∧
      (claim ((revoke_claim ⟨["B"], [("u1", "K")], defaultConfig⟩ "u1"
          true).2) "u2").1 = some "K" :=
  reuse_at_head ⟨["B"], [("u1", "K")], defaultConfig⟩ "u1" "u2" "K"
    (by decide) (by decide) (by decide) (by decide)

/-- **C5** (counterexample to the claim as stated): a single `set_config`
call supplying both a `min_days` value and an invalid mode raises the
invalid-configuration error, but only *after* applying `min_days`: starting
from the default configuration (`min_days = 7`), `set_config(5, "bogus")`
fails and nevertheless leaves `min_days = 5` — the configuration is not left
unchanged. -/
theorem set_config_counterexample :
    (set_config emptyStore (some 5) (some "bogus")).1 = false ∧
    (set_config emptyStore (some 5) (some "bogus")).2.config.min_days = 5 ∧
    emptyStore.config.min_days = 7 := by
  decide

/-- **C5** (amended): `set_config` rejects an invalid mode (anything outside
`{account, guild}`) without changing the stored mode, but a `min_days` value
supplied in the same call is applied *before* the mode validation, so the
stored `min_days` is altered despite the failure.  `set_config` itself does
no range validation of `min_days`; the out-of-range check (`0..3650`) is
performed synchronously by the `/setdays` command handler before any state
mutation. -/
theorem set_config_spec (s : Store) (d : Int) (m : String)
    (hm1 : m ≠ "account") (hm2 : m ≠ "guild") :
    set_config s (some d) (some m) =
        (false, { s with config := { s.config with min_days := d } }) ∧
      (∀ days : Int, (days < 0 ∨ days > 3650) →
        cmd_setdays s days = (false, s)) := by
  constructor
  · have hmb : (m == "account" || m == "guild") = false := by
      simp [hm1, hm2]
    simp [set_config, cfgWithDays, hmb]
  · intro days hd
    simp [cmd_setdays, hd]

/-- Witness for C5 (amended) at the concrete failing call and an
out-of-range `/setdays`. -/
theorem set_config_spec_witness :
    set_config emptyStore (some 5) (some "bogus") =
        (false,
          { emptyStore with
            config := { emptyStore.config with min_days := 5 } }) ∧
      cmd_setdays emptyStore (-1) = (false, emptyStore) := by
  have h := set_config_spec emptyStore 5 "bogus" (by decide) (by decide)
  exact ⟨h.1, h.2 (-1) (by decide)⟩

/-- **C6** (counterexample to the claim as stated): the candidate list is
de-duplicated against the existing pool and claims but *not* against itself:
`add_keys(["X", "X"])` on the empty store returns 2 and leaves the pool
`["X", "X"]`, which contains a duplicate. -/
theorem add_keys_dup_counterexample :
    (add_keys emptyStore ["X", "X"]).1 = 2 ∧
    (add_keys emptyStore ["X", "X"]).2.pool = ["X", "X"] ∧
    ¬ (add_keys emptyStore ["X", "X"]).2.pool.Nodup := by
  decide

/-- **C6** (amended): `add_keys` trims each candidate and drops empty ones,
never appends a key already present in the pool or bound in the claim map,
appends exactly the genuinely new keys at the pool tail, returns the count
of keys actually appended, and — provided the cleaned candidate list is
itself duplicate-free — leaves a duplicate-free pool duplicate-free. -/
theorem add_keys_spec (s : Store) (ks : List String) :
    (add_keys s ks).2.claims = s.claims ∧
    (add_keys s ks).2.pool = s.pool ++ newKeys s ks ∧
    (add_keys s ks).1 = (newKeys s ks).length ∧
    (∀ k ∈ newKeys s ks,
      k ∉ s.pool ∧ k ∉ claimsValues s.claims ∧ k ≠ "" ∧ k ∈ cleanKeys ks) ∧
    (s.pool.Nodup → (cleanKeys ks).Nodup → (add_keys s ks).2.pool.Nodup) := by
  refine ⟨by rw [add_keys_eq], by rw [add_keys_eq], by rw [add_keys_eq],
    ?_, ?_⟩
  · intro k hk
    have h := mem_newKeys.1 hk
    exact ⟨h.2.1, h.2.2, mem_cleanKeys_ne_empty h.1, h.1⟩
  · intro hpool hnd
    rw [add_keys_eq]
    refine hpool.append (hnd.filter _) ?_
    intro a ha hanew
    exact (mem_newKeys.1 hanew).2.1 ha

/-- Witness for C6 (amended): the spec scenario — pool `["A", "B"]`,
`add_keys(["B", "C"])` returns 1 and the pool becomes `["A", "B", "C"]`,
still duplicate-free. -/
theorem add_keys_spec_witness :
    (add_keys ⟨["A", "B"], [], defaultConfig⟩ ["B", "C"]).1 = 1 ∧
    (add_keys ⟨["A", "B"], [], defaultConfig⟩ ["B", "C"]).2.pool =
      ["A", "B", "C"] ∧
    (add_keys ⟨["A", "B"], [], defaultConfig⟩ ["B", "C"]).2.pool.Nodup := by
  have h := add_keys_spec ⟨["A", "B"], [], defaultConfig⟩ ["B", "C"]
  refine ⟨?_, ?_, h.2.2.2.2 (by decide) (by decide)⟩
  · rw [h.2.2.1]
    decide
  · rw [h.2.1]
    decide

/-- **C9**: `remove_key_from_pool(key)` returns `True` and strips the key
from the pool when the key is pooled; otherwise, when the key is bound in
the claim map, it removes exactly the claims bound to the key — the key does
not re-enter the pool, `available_count` is unaffected, and (under the
injectivity invariant, i.e. when at most one entry holds the key) exactly
one claim entry is removed — and returns `True`; it returns `False` and
changes nothing when the key is in neither place. -/
theorem remove_key_spec (s : Store) (key : String) :
    (key ∈ s.pool →
      (remove_key_from_pool s key).1 = true ∧
      key ∉ (remove_key_from_pool s key).2.pool) ∧
    (key ∉ s.pool → key ∈ claimsValues s.claims →
      (remove_key_from_pool s key).1 = true ∧
      (remove_key_from_pool s key).2.pool = s.pool ∧
      (remove_key_from_pool s key).2.claims =
        s.claims.filter (fun p => p.2 != key) ∧
      ((s.claims.filter (fun p => p.2 == key)).length ≤ 1 →
        claim_count (remove_key_from_pool s key).2 + 1 = claim_count s)) ∧
    (key ∉ s.pool → key ∉ claimsValues s.claims →
      remove_key_from_pool s key = (false, s)) := by
  by_cases hc : s.pool.contains key = true
  · have hkmem : key ∈ s.pool := by simpa using hc
    refine ⟨fun _ => ⟨?_, ?_⟩, fun hnp _ => absurd hkmem hnp,
      fun hnp _ => absurd hkmem hnp⟩
    · simp [remove_key_from_pool, hkmem]
    · simp [remove_key_from_pool, hkmem]
  · have hcf : s.pool.contains key = false := by simpa using hc
    have hknp : key ∉ s.pool := by simpa using hcf
    by_cases hv : (claimsValues s.claims).contains key = true
    · have hkv : key ∈ claimsValues s.claims := by simpa using hv
      refine ⟨fun hk => absurd hk hknp, fun _ _ => ⟨?_, ?_, ?_, ?_⟩,
        fun _ hnv => absurd hkv hnv⟩
      · simp [remove_key_from_pool, hknp, hkv]
      · simp [remove_key_from_pool, hknp, hkv]
      · simp [remove_key_from_pool, hknp, hkv]
      · intro hle
        have hsplit := length_filter_split s.claims key
        have hpos : 0 < (s.claims.filter (fun p => p.2 == key)).length := by
          obtain ⟨q, hq, hq2⟩ := mem_claimsValues.1 hkv
          have hqf : q ∈ s.claims.filter (fun p => p.2 == key) :=
            List.mem_filter.2 ⟨hq, by simp [hq2]⟩
          exact List.length_pos.2 (fun hnil => by simp [hnil] at hqf)
        have hclaims :
            (remove_key_from_pool s key).2.claims =
              s.claims.filter (fun p => p.2 != key) := by
          simp [remove_key_from_pool, hknp, hkv]
        simp only [claim_count, hclaims]
        omega
    · have hvf : (claimsValues s.claims).contains key = false := by
        simpa using hv
      have hknv : key ∉ claimsValues s.claims := by simpa using hvf
      refine ⟨fun hk => absurd hk hknp, fun _ hkv => absurd hkv hknv,
        fun _ _ => ?_⟩
      simp [remove_key_from_pool, hknp, hknv]

/-- Witness for C9 at the spec scenario: `"B"` is held only by `"u3"` and is
not pooled; removal deletes the claim, leaves the pool `["A"]` untouched,
and removes exactly one claim entry. -/
theorem remove_key_spec_witness :
    (remove_key_from_pool ⟨["A"], [("u3", "B")], defaultConfig⟩ "B").1 =
        true ∧
      (remove_key_from_pool ⟨["A"], [("u3", "B")], defaultConfig⟩
          "B").2.pool = ["A"] ∧
      claim_count (remove_key_from_pool ⟨["A"], [("u3", "B")],
          defaultConfig⟩ "B").2 + 1 = 1 := by
  have h := (remove_key_spec ⟨["A"], [("u3", "B")], defaultConfig⟩ "B").2.1
    (by decide) (by decide)
  exact ⟨h.1, h.2.1, h.2.2.2 (by decide)⟩

/-- **C10** (implicit pool-first removal): whenever the key is present in
the pool, `remove_key_from_pool` removes every occurrence of it from the
pool and returns `True` while leaving the claim map completely unchanged —
even if the same key is simultaneously bound in the claim map, that binding
survives; the claim-removal branch runs only when the key is absent from the
pool. -/
theorem remove_key_pool_first (s : Store) (key : String) (h : key ∈ s.pool) :
    (remove_key_from_pool s key).1 = true ∧
    (remove_key_from_pool s key).2.pool =
      s.pool.filter (fun k => k != key) ∧
    key ∉ (remove_key_from_pool s key).2.pool ∧
    (remove_key_from_pool s key).2.claims = s.claims := by
  refine ⟨?_, ?_, ?_, ?_⟩ <;> simp [remove_key_from_pool, h]

/-- Witness for C10 at a state where `"K"` is both pooled and claimed (such
states are reachable through `assign_key_to_user` with
`remove_from_pool=False`): removal strips the pool but the `("u", "K")`
binding survives. -/
theorem remove_key_pool_first_witness :
    (remove_key_from_pool ⟨["K"], [("u", "K")], defaultConfig⟩ "K").1 =
        true ∧
      (remove_key_from_pool ⟨["K"], [("u", "K")], defaultConfig⟩
          "K").2.pool = [] ∧
      "K" ∉ (remove_key_from_pool ⟨["K"], [("u", "K")], defaultConfig⟩
          "K").2.pool ∧
      (remove_key_from_pool ⟨["K"], [("u", "K")], defaultConfig⟩
          "K").2.claims = [("u", "K")] := by
  have h := remove_key_pool_first ⟨["K"], [("u", "K")], defaultConfig⟩ "K"
    (by decide)
  refine ⟨h.1, ?_, h.2.2.1, h.2.2.2⟩
  rw [h.2.1]
  decide

end KeyBot
